import Mathlib

/-!
Verification of the caterpillar hierarchical logic-network synthesis core
(mapping strategies, ancilla pool, node expanders, synthesis driver).

The definitions below are a shallow embedding of
src/lib/caterpillar/caterpillar/mapping_strategies.hpp and the synthesis
driver header (logic_network_synthesis).  Pure C++ routines become Lean
functions; the driver's mutable state becomes an explicit record threaded
through a fold over the step stream.  External collaborators (the
mockturtle LogicNetwork, its topo_view, and the SAT pebble solver of
sat.hpp) are modelled from the specification, as noted in doc comments.
-/

namespace Caterpillar

/-- Reversible gates emitted into the QuantumNetwork
(tweedledum gate kinds pauli_x, cx, mcx used by the driver). -/
inductive QGate
  | x (t : Nat)
  | cx (c t : Nat)
  | mcx (cs ts : List Nat)
deriving DecidableEq

/-- Node classification of the modelled LogicNetwork.  The driver's
expanders dispatch on is_and / is_or / is_xor / is_xor3 / is_maj,
is_constant and is_pi; we model a network class exposing exactly these
gate kinds (no node_function capability). -/
inductive NodeKind
  | constNode (value : Bool)
  | pi
  | andGate
  | orGate
  | xorGate
  | xor3Gate
  | majGate
deriving DecidableEq

/-- A signed fan-in edge: child node index plus complemented bit. -/
structure Fanin where
  node : Nat
  comp : Bool
deriving DecidableEq

/-- One logic node: its kind and its ordered fan-in list. -/
structure LNode where
  kind : NodeKind
  fanins : List Fanin
deriving DecidableEq

/-- A logic network: nodes indexed by position (node 0 is the constant-false
node, as in mockturtle), plus the primary-output signals. -/
structure Network where
  nodes : List LNode
  outputs : List Fanin
deriving DecidableEq

def defaultLNode : LNode := ⟨NodeKind.constNode false, []⟩

def Network.size (ntk : Network) : Nat := ntk.nodes.length

def Network.kindOf (ntk : Network) (n : Nat) : NodeKind :=
  (ntk.nodes.getD n defaultLNode).kind

def Network.faninsOf (ntk : Network) (n : Nat) : List Fanin :=
  (ntk.nodes.getD n defaultLNode).fanins

def Network.is_constant (ntk : Network) (n : Nat) : Bool :=
  match ntk.kindOf n with
  | NodeKind.constNode _ => true
  | _ => false

def Network.is_pi (ntk : Network) (n : Nat) : Bool :=
  match ntk.kindOf n with
  | NodeKind.pi => true
  | _ => false

def Network.is_and (ntk : Network) (n : Nat) : Bool :=
  match ntk.kindOf n with
  | NodeKind.andGate => true
  | _ => false

def Network.is_or (ntk : Network) (n : Nat) : Bool :=
  match ntk.kindOf n with
  | NodeKind.orGate => true
  | _ => false

def Network.is_xor (ntk : Network) (n : Nat) : Bool :=
  match ntk.kindOf n with
  | NodeKind.xorGate => true
  | _ => false

def Network.is_xor3 (ntk : Network) (n : Nat) : Bool :=
  match ntk.kindOf n with
  | NodeKind.xor3Gate => true
  | _ => false

def Network.is_maj (ntk : Network) (n : Nat) : Bool :=
  match ntk.kindOf n with
  | NodeKind.majGate => true
  | _ => false

/-- constant_value capability: the Boolean value stored at a constant node. -/
def Network.constant_value (ntk : Network) (n : Nat) : Bool :=
  match ntk.kindOf n with
  | NodeKind.constNode v => v
  | _ => false

/-- fanout_size capability: number of fan-in references to n from all nodes
plus the number of primary-output references (mockturtle counts both). -/
def Network.fanout_size (ntk : Network) (n : Nat) : Nat :=
  (ntk.nodes.foldr (fun nd acc => acc + nd.fanins.countP (fun f => f.node == n)) 0)
    + ntk.outputs.countP (fun f => f.node == n)

/-- Modelled from the spec: the get_constant capability of the external
LogicNetwork.  Node 0 is the constant-false node; get_constant true is a
distinct node (index 1) when the network stores one, otherwise the
complemented constant-false signal (as in mockturtle AIG/XMG networks). -/
def Network.hasDistinctTrue (ntk : Network) : Bool :=
  match ntk.nodes.get? 1 with
  | some nd => nd.kind == NodeKind.constNode true
  | none => false

def Network.get_constant (ntk : Network) (v : Bool) : Fanin :=
  if v then
    (if ntk.hasDistinctTrue then ⟨1, false⟩ else ⟨0, true⟩)
  else ⟨0, false⟩

/-- Primary inputs in network iteration (creation) order. -/
def Network.pis (ntk : Network) : List Nat :=
  (List.range ntk.size).filter (fun n => ntk.is_pi n)

/-- Nodes driving a primary output (the driver set built by each strategy). -/
def driverNodes (ntk : Network) : List Nat :=
  ntk.outputs.map (fun f => f.node)

/-! ### Step vocabulary (mapping_strategy_action) -/

/-- The tagged step actions: compute_action, uncompute_action,
compute_inplace_action and uncompute_inplace_action; the in-place variants
carry a target node index. -/
inductive Action
  | compute
  | uncompute
  | computeInplace (targetIndex : Nat)
  | uncomputeInplace (targetIndex : Nat)
deriving DecidableEq

abbrev Step := Nat × Action

/-! ### Topological order (mockturtle topo_view, an external collaborator)

Modelled from the spec: the Bennett strategy iterates the nodes "in a
topological order rooted at primary outputs".  In mockturtle a fan-in
always precedes its node (indices are assigned at creation), so index
order restricted to the output cone is such an order; the cone is computed
by one pass over the indices from high to low, seeded with the PO nodes. -/

def coneNodes (ntk : Network) : List Nat :=
  ((List.range ntk.size).reverse).foldl
    (fun marked i =>
      if marked.contains i then marked ++ (ntk.faninsOf i).map (fun f => f.node)
      else marked)
    (ntk.outputs.map (fun f => f.node))

def topoNodes (ntk : Network) : List Nat :=
  (List.range ntk.size).filter (fun i => (coneNodes ntk).contains i)

/-- The non-constant, non-input nodes of the topological view, in visit
order; these are exactly the nodes for which the Bennett strategy emits
steps. -/
def topoGateNodes (ntk : Network) : List Nat :=
  (topoNodes ntk).filter (fun n => !(ntk.is_constant n) && !(ntk.is_pi n))

/-! ### Bennett mapping strategy -/

/-- std::vector insert at an iterator position, returning the new list
(the C++ insert-iterator index is threaded separately). -/
def insertAt (l : List α) (i : Nat) (a : α) : List α :=
  l.take i ++ a :: l.drop i

/-- The node loop of bennett_mapping_strategy: for each visited node the
compute step is inserted at the iterator position, the iterator advances
past it, and for non-drivers the uncompute step is inserted without
advancing (so later computes land between a compute and its uncompute). -/
def bennettLoop (ntk : Network) (drivers : List Nat) :
    List Nat → List Step × Nat → List Step × Nat
  | [], acc => acc
  | n :: rest, (steps, pos) =>
    if ntk.is_constant n || ntk.is_pi n then
      bennettLoop ntk drivers rest (steps, pos)
    else
      let steps1 := insertAt steps pos (n, Action.compute)
      let pos1 := pos + 1
      if drivers.contains n then
        bennettLoop ntk drivers rest (steps1, pos1)
      else
        bennettLoop ntk drivers rest (insertAt steps1 pos1 (n, Action.uncompute), pos1)

/-- The step list produced by bennett_mapping_strategy and replayed by its
foreach_step. -/
def bennettSteps (ntk : Network) : List Step :=
  (bennettLoop ntk (driverNodes ntk) (topoNodes ntk) ([], 0)).1

/-! ### Bennett in-place mapping strategy -/

/-- mockturtle decr_value on a uint32 value field: decrement with wrap-around
at 2^32 (the C++ counter is a machine integer, so decrementing 0 yields
2^32 - 1, not 0). -/
def decrValue (x : Nat) : Nat :=
  (x + (2 ^ 32 - 1)) % 2 ^ 32

/-- Pointwise update of a total map (node_map / value field). -/
def updateMap (m : Nat → Nat) (k v : Nat) : Nat → Nat :=
  fun i => if i = k then v else m i

/-- One iteration of the fan-in loop of bennett_inplace_mapping_strategy:
decrement the fan-in's remaining-fan-out counter; a fan-in whose
decremented counter equals zero is recorded as target only when no target
was recorded before (the first zero wins). -/
def decrStep (acc : (Nat → Nat) × Option Nat) (f : Fanin) : (Nat → Nat) × Option Nat :=
  let newVal := decrValue (acc.1 f.node)
  let v' := updateMap acc.1 f.node newVal
  let target' :=
    if newVal = 0 then
      match acc.2 with
      | none => some f.node
      | some t => some t
    else acc.2
  (v', target')

/-- The full fan-in loop: fold decrStep over the fan-ins in iteration
order, starting from the current value field and no target. -/
def decrFanins (fs : List Fanin) (v : Nat → Nat) (target : Option Nat) :
    (Nat → Nat) × Option Nat :=
  fs.foldl decrStep (v, target)

/-- The per-node body of bennett_inplace_mapping_strategy: returns the step
inserted at the iterator position, the optional step inserted after it
without advancing, and the updated value field.  The in-place pair is
chosen exactly when a target was found, the node is not an output driver,
and the node is an XOR or XOR3 gate; otherwise the Bennett compute (and
uncompute for non-drivers) is produced. -/
def biDecide (ntk : Network) (drivers : List Nat) (v : Nat → Nat) (n : Nat) :
    Step × Option Step × (Nat → Nat) :=
  let r := decrFanins (ntk.faninsOf n) v none
  match r.2 with
  | some tgt =>
    if !(drivers.contains n) && (ntk.is_xor n || ntk.is_xor3 n) then
      ((n, Action.computeInplace tgt), some (n, Action.uncomputeInplace tgt), r.1)
    else
      ((n, Action.compute),
       (if drivers.contains n then none else some (n, Action.uncompute)), r.1)
  | none =>
    ((n, Action.compute),
     (if drivers.contains n then none else some (n, Action.uncompute)), r.1)

/-- The node loop of bennett_inplace_mapping_strategy (it iterates
ntk.foreach_node, i.e. all node indices in order; the topo_view line is
commented out in the source). -/
def biLoop (ntk : Network) (drivers : List Nat) :
    List Nat → (Nat → Nat) → List Step × Nat → List Step × Nat
  | [], _, acc => acc
  | n :: rest, v, (steps, pos) =>
    if ntk.is_constant n || ntk.is_pi n then
      biLoop ntk drivers rest v (steps, pos)
    else
      let d := biDecide ntk drivers v n
      let steps1 := insertAt steps pos d.1
      let pos1 := pos + 1
      match d.2.1 with
      | none => biLoop ntk drivers rest d.2.2 (steps1, pos1)
      | some b => biLoop ntk drivers rest d.2.2 (insertAt steps1 pos1 b, pos1)

/-- The step list produced by bennett_inplace_mapping_strategy: reference
counters are initialised to fanout_size (clear_values + set_value) and the
loop runs over all node indices. -/
def biSteps (ntk : Network) : List Step :=
  (biLoop ntk (driverNodes ntk) (List.range ntk.size)
    (fun n => ntk.fanout_size n) ([], 0)).1

/-! ### Pebbling mapping strategy -/

/-- The pebbling strategy object: the replayed step list and the limit_
member (initialised to 50 in the source and written by set_pebble_limit,
but never read). -/
structure PebblingStrategy where
  steps : List Step
  limit_ : Nat
deriving DecidableEq

/-- The pebbling_mapping_strategy constructor: it runs the SAT pebble
solver with the pebbles argument given at construction and stores the
resulting steps.  The solver itself (pebble_solver_man of sat.hpp, not
under src/) is modelled from the spec as an abstract collaborator mapping
a network and a pebble budget to an ordered step list, here a parameter. -/
def pebbling_mapping_strategy (solver : Network → Nat → List Step)
    (ntk : Network) (pebbles : Nat) : PebblingStrategy :=
  { steps := solver ntk pebbles, limit_ := 50 }

/-- set_pebble_limit: stores the limit in the limit_ member (and nothing
else; the steps member is untouched). -/
def set_pebble_limit (s : PebblingStrategy) (limit : Nat) : PebblingStrategy :=
  { s with limit_ := limit }

/-- The step list the synthesis driver replays when instantiated with the
pebbling strategy: the driver constructs the strategy from the network
alone (so the constructor's pebbles argument takes its default value 0)
and then, because the strategy advertises set_pebble_limit, passes the
configured ps.pebble_limit to it, before replaying foreach_step. -/
def pebblingDriverSteps (solver : Network → Nat → List Step)
    (ntk : Network) (pebbleLimit : Nat) : List Step :=
  (set_pebble_limit (pebbling_mapping_strategy solver ntk 0) pebbleLimit).steps

/-! ### Synthesis driver state

The mutable state of logic_network_synthesis_impl: the quantum network is
represented by its qubit count and the emitted gate trace, the error sink
(std::cerr) by the list of emitted diagnostics, node_to_qubit by a total
map defaulting to 0 (mockturtle node_map value-initialises its entries),
and the ancilla pool by a list whose head is the stack top. -/

structure DriverState where
  numQubits : Nat
  gates : List QGate
  errors : List String
  nodeToQubit : Nat → Nat
  freeAncillae : List Nat
  requiredAncillae : Nat

def initState : DriverState :=
  { numQubits := 0, gates := [], errors := [], nodeToQubit := fun _ => 0,
    freeAncillae := [], requiredAncillae := 0 }

/-- request_ancilla: pop the free stack if non-empty, otherwise allocate a
fresh qubit and count it in required_ancillae. -/
def request_ancilla (s : DriverState) : Nat × DriverState :=
  match s.freeAncillae with
  | [] =>
    (s.numQubits,
     { s with numQubits := s.numQubits + 1,
              requiredAncillae := s.requiredAncillae + 1 })
  | q :: rest => (q, { s with freeAncillae := rest })

/-- release_ancilla: push the qubit on the free stack (no validation). -/
def release_ancilla (s : DriverState) (q : Nat) : DriverState :=
  { s with freeAncillae := q :: s.freeAncillae }

/-! ### Node expanders -/

/-- get_fanin_as_literals: each fan-in becomes (node index << 1) | comp. -/
def faninLiterals (ntk : Network) (n : Nat) : List Nat :=
  (ntk.faninsOf n).map (fun f => 2 * f.node + (if f.comp then 1 else 0))

/-- The node-index part of a fan-in literal (literal >> 1). -/
def litNode (l : Nat) : Nat := l / 2

/-- The complemented bit of a fan-in literal (literal & 1). -/
def litComp (l : Nat) : Bool := l % 2 = 1

/-- A conditionally emitted pauli_x gate (the polarity X-flips). -/
def xGatesIf (b : Bool) (q : Nat) : List QGate :=
  if b then [QGate.x q] else []

def compute_and (c1 c2 : Nat) (p1 p2 : Bool) (t : Nat) : List QGate :=
  xGatesIf p1 c1 ++ xGatesIf p2 c2 ++ [QGate.mcx [c1, c2] [t]]
    ++ xGatesIf p2 c2 ++ xGatesIf p1 c1

def compute_or (c1 c2 : Nat) (p1 p2 : Bool) (t : Nat) : List QGate :=
  xGatesIf (!p1) c1 ++ xGatesIf (!p2) c2
    ++ [QGate.mcx [c1, c2] [t], QGate.x t]
    ++ xGatesIf (!p2) c2 ++ xGatesIf (!p1) c1

def compute_xor (c1 c2 : Nat) (inv : Bool) (t : Nat) : List QGate :=
  [QGate.cx c1 t, QGate.cx c2 t] ++ xGatesIf inv t

def compute_xor3 (c1 c2 c3 : Nat) (inv : Bool) (t : Nat) : List QGate :=
  [QGate.cx c1 t, QGate.cx c2 t, QGate.cx c3 t] ++ xGatesIf inv t

def compute_maj (c1 c2 c3 : Nat) (p1 p2 p3 : Bool) (t : Nat) : List QGate :=
  xGatesIf p1 c1 ++ xGatesIf (!p2) c2 ++ xGatesIf p3 c3
    ++ [QGate.cx c1 c2, QGate.cx c3 c1, QGate.cx c3 t,
        QGate.mcx [c1, c2] [t], QGate.cx c3 c1, QGate.cx c1 c2]
    ++ xGatesIf p3 c3 ++ xGatesIf (!p2) c2 ++ xGatesIf p1 c1

/-- The diagnostic printed to std::cerr on the in-place mismatch path. -/
def errMsg : String := "[e] target does not match any control in in-place"

/-- compute_xor_inplace: CNOT from the other control into the matching
one; if neither control equals the target, report the error; the inv X is
emitted afterwards in every case.  Returns (gates, diagnostics). -/
def compute_xor_inplace (c1 c2 : Nat) (inv : Bool) (t : Nat) :
    List QGate × List String :=
  let base : List QGate × List String :=
    if c1 = t then ([QGate.cx c2 c1], [])
    else if c2 = t then ([QGate.cx c1 c2], [])
    else ([], [errMsg])
  (base.1 ++ xGatesIf inv t, base.2)

/-- compute_xor3_inplace: CNOTs from the two non-target controls into the
matching one; error if no control matches; inv X afterwards. -/
def compute_xor3_inplace (c1 c2 c3 : Nat) (inv : Bool) (t : Nat) :
    List QGate × List String :=
  let base : List QGate × List String :=
    if c1 = t then ([QGate.cx c2 c1, QGate.cx c3 c1], [])
    else if c2 = t then ([QGate.cx c1 c2, QGate.cx c3 c2], [])
    else if c3 = t then ([QGate.cx c1 c3, QGate.cx c2 c3], [])
    else ([], [errMsg])
  (base.1 ++ xGatesIf inv t, base.2)

/-- compute_node: the out-of-place expander, dispatching on the gate kind
(first match wins) with the constant-fold specialisations of XOR3 and MAJ
on a constant first fan-in.  On bits, the C++ comparison a != b is xor.
The modelled network class has no node_function capability, so the final
truth-table branch is compiled out. -/
def compute_node (ntk : Network) (m : Nat → Nat) (node : Nat) (t : Nat) :
    List QGate :=
  let controls := faninLiterals ntk node
  let l0 := controls.getD 0 0
  let l1 := controls.getD 1 0
  let l2 := controls.getD 2 0
  if ntk.is_and node then
    compute_and (m (litNode l0)) (m (litNode l1)) (litComp l0) (litComp l1) t
  else if ntk.is_or node then
    compute_or (m (litNode l0)) (m (litNode l1)) (litComp l0) (litComp l1) t
  else if ntk.is_xor node then
    compute_xor (m (litNode l0)) (m (litNode l1))
      (xor (litComp l0) (litComp l1)) t
  else if ntk.is_xor3 node then
    if ntk.is_constant (litNode l0) then
      compute_xor (m (litNode l1)) (m (litNode l2))
        (xor (xor (litComp l0) (litComp l1)) (litComp l2)) t
    else
      compute_xor3 (m (litNode l0)) (m (litNode l1)) (m (litNode l2))
        (xor (xor (litComp l0) (litComp l1)) (litComp l2)) t
  else if ntk.is_maj node then
    if ntk.is_constant (litNode l0) then
      if litComp l0 then
        compute_or (m (litNode l1)) (m (litNode l2)) (litComp l1) (litComp l2) t
      else
        compute_and (m (litNode l1)) (m (litNode l2)) (litComp l1) (litComp l2) t
    else
      compute_maj (m (litNode l0)) (m (litNode l1)) (m (litNode l2))
        (litComp l0) (litComp l1) (litComp l2) t
  else []

/-- compute_node_inplace: the in-place expander; only XOR and XOR3 are
dispatched (the node_function fallback is compiled out for the modelled
network class), with the same XOR3 constant-fold as out-of-place. -/
def compute_node_inplace (ntk : Network) (m : Nat → Nat) (node : Nat) (t : Nat) :
    List QGate × List String :=
  let controls := faninLiterals ntk node
  let l0 := controls.getD 0 0
  let l1 := controls.getD 1 0
  let l2 := controls.getD 2 0
  if ntk.is_xor node then
    compute_xor_inplace (m (litNode l0)) (m (litNode l1))
      (xor (litComp l0) (litComp l1)) t
  else if ntk.is_xor3 node then
    if ntk.is_constant (litNode l0) then
      compute_xor_inplace (m (litNode l1)) (m (litNode l2))
        (xor (xor (litComp l0) (litComp l1)) (litComp l2)) t
    else
      compute_xor3_inplace (m (litNode l0)) (m (litNode l1)) (m (litNode l2))
        (xor (xor (litComp l0) (litComp l1)) (litComp l2)) t
  else ([], [])

/-! ### Step execution (the foreach_step visitor of run) -/

/-- One step of the driver's strategy.foreach_step visitor.  compute:
request an ancilla, map the node to it, expand out-of-place.  uncompute:
look up the node's qubit, replay the same expander, release the qubit (the
node_to_qubit entry is not erased).  compute_inplace: the node takes over
the target's qubit and the in-place expander runs.  uncompute_inplace:
the in-place expander is replayed on the node's qubit (the action's
target index is not consulted). -/
def execStep (ntk : Network) (s : DriverState) (st : Step) : DriverState :=
  match st.2 with
  | Action.compute =>
    let r := request_ancilla s
    let m := updateMap r.2.nodeToQubit st.1 r.1
    { r.2 with nodeToQubit := m,
               gates := r.2.gates ++ compute_node ntk m st.1 r.1 }
  | Action.uncompute =>
    let t := s.nodeToQubit st.1
    release_ancilla
      { s with gates := s.gates ++ compute_node ntk s.nodeToQubit st.1 t } t
  | Action.computeInplace tgt =>
    let t := s.nodeToQubit tgt
    let m := updateMap s.nodeToQubit st.1 t
    let r := compute_node_inplace ntk m st.1 t
    { s with nodeToQubit := m, gates := s.gates ++ r.1,
             errors := s.errors ++ r.2 }
  | Action.uncomputeInplace _ =>
    let t := s.nodeToQubit st.1
    let r := compute_node_inplace ntk s.nodeToQubit st.1 t
    { s with gates := s.gates ++ r.1, errors := s.errors ++ r.2 }

def execSteps (ntk : Network) (s : DriverState) (steps : List Step) : DriverState :=
  steps.foldl (execStep ntk) s

/-- The gates appended to the trace by executing one step from state s. -/
def emitted (ntk : Network) (s : DriverState) (st : Step) : List QGate :=
  (execStep ntk s st).gates.drop s.gates.length

/-! ### Run preparation -/

/-- prepare_inputs: allocate one fresh qubit per primary input, in network
iteration order, recording the mapping. -/
def prepare_inputs (ntk : Network) (s : DriverState) : DriverState :=
  ntk.pis.foldl
    (fun s n =>
      { s with nodeToQubit := updateMap s.nodeToQubit n s.numQubits,
               numQubits := s.numQubits + 1 })
    s

/-- prepare_constant: skip if the constant node has no fan-out; otherwise
allocate and map a qubit and emit an X on it when the effective value
(constant_value xor is_complemented) is true. -/
def prepare_constant (ntk : Network) (v : Bool) (s : DriverState) : DriverState :=
  let f := ntk.get_constant v
  let n := f.node
  if ntk.fanout_size n = 0 then s
  else
    let val := xor (ntk.constant_value n) f.comp
    let s1 := { s with nodeToQubit := updateMap s.nodeToQubit n s.numQubits,
                       numQubits := s.numQubits + 1 }
    if val then { s1 with gates := s1.gates ++ [QGate.x s.numQubits] } else s1

/-- The preparation phase of run(): inputs, constant false, and constant
true only when it is a distinct node. -/
def prepareAll (ntk : Network) : DriverState :=
  let s := prepare_inputs ntk initState
  let s := prepare_constant ntk false s
  if (ntk.get_constant false).node ≠ (ntk.get_constant true).node then
    prepare_constant ntk true s
  else s

/-- A full driver run over a given strategy step list. -/
def runSteps (ntk : Network) (steps : List Step) : DriverState :=
  execSteps ntk (prepareAll ntk) steps

/-- A full driver run with the Bennett mapping strategy. -/
def runBennett (ntk : Network) : DriverState :=
  runSteps ntk (bennettSteps ntk)

/-! ### Claim-side renderings (formalising the specification's words) -/

/-- The adjacency property claimed for the Bennett stream: somewhere in
the list, the step (n, uncompute) stands immediately after (n, compute). -/
def immediatelyUncomputed (n : Nat) : List Step → Bool
  | [] => false
  | [_] => false
  | a :: b :: rest =>
    (decide (a = (n, Action.compute)) && decide (b = (n, Action.uncompute)))
      || immediatelyUncomputed n (b :: rest)

/-- The specification's target rule for the in-place strategy: walking the
fan-ins in iteration order and decrementing each one's remaining-fan-out
counter, the first fan-in whose counter hits zero wins as target. -/
def specTargetAux (v : Nat → Nat) : List Fanin → Option Nat
  | [] => none
  | f :: rest =>
    let newVal := decrValue (v f.node)
    if newVal = 0 then some f.node
    else specTargetAux (updateMap v f.node newVal) rest

def specTarget (ntk : Network) (v : Nat → Nat) (n : Nat) : Option Nat :=
  specTargetAux v (ntk.faninsOf n)

/-- The inversion flag claim C8 prescribes for the constant-folded XOR3:
the inversion of the remaining binary XOR, XORed with the constant's
stored Boolean value and with the constant fan-in's own polarity bit. -/
def claimedFoldFlag (ntk : Network) (f1 f2 f3 : Fanin) : Bool :=
  xor (xor (xor f2.comp f3.comp) (ntk.constant_value f1.node)) f1.comp

/-- The number of nodes of the network that are neither constants nor
primary inputs (the count claim C4 refers to). -/
def numGateNodes (ntk : Network) : Nat :=
  ((List.range ntk.size).filter
    (fun n => !(ntk.is_constant n) && !(ntk.is_pi n))).length

/-! ### Concrete networks used as witnesses and counterexamples -/

/-- Two chained AND gates: inputs 1, 2; node 3 = AND(1, 2) (not a driver);
node 4 = AND(3, 2), the single primary output. -/
def ntkA : Network :=
  { nodes :=
      [⟨NodeKind.constNode false, []⟩,
       ⟨NodeKind.pi, []⟩,
       ⟨NodeKind.pi, []⟩,
       ⟨NodeKind.andGate, [⟨1, false⟩, ⟨2, false⟩]⟩,
       ⟨NodeKind.andGate, [⟨3, false⟩, ⟨2, false⟩]⟩],
    outputs := [⟨4, false⟩] }

/-- A network with a dead gate: node 3 = AND(1, 2) drives nothing; node 4
= AND(1, 2) is the primary output. -/
def ntkB : Network :=
  { nodes :=
      [⟨NodeKind.constNode false, []⟩,
       ⟨NodeKind.pi, []⟩,
       ⟨NodeKind.pi, []⟩,
       ⟨NodeKind.andGate, [⟨1, false⟩, ⟨2, false⟩]⟩,
       ⟨NodeKind.andGate, [⟨1, false⟩, ⟨2, false⟩]⟩],
    outputs := [⟨4, false⟩] }

/-- An XOR chain: inputs 1, 2, 3; node 4 = XOR(1, 2) with a single reader;
node 5 = XOR(4, 3), the primary output. -/
def ntkC : Network :=
  { nodes :=
      [⟨NodeKind.constNode false, []⟩,
       ⟨NodeKind.pi, []⟩,
       ⟨NodeKind.pi, []⟩,
       ⟨NodeKind.pi, []⟩,
       ⟨NodeKind.xorGate, [⟨1, false⟩, ⟨2, false⟩]⟩,
       ⟨NodeKind.xorGate, [⟨4, false⟩, ⟨3, false⟩]⟩],
    outputs := [⟨5, false⟩] }

/-- A majority gate on three inputs, the third fan-in complemented:
node 4 = MAJ(1, 2, not 3), the primary output. -/
def ntkM : Network :=
  { nodes :=
      [⟨NodeKind.constNode false, []⟩,
       ⟨NodeKind.pi, []⟩,
       ⟨NodeKind.pi, []⟩,
       ⟨NodeKind.pi, []⟩,
       ⟨NodeKind.majGate, [⟨1, false⟩, ⟨2, false⟩, ⟨3, true⟩]⟩],
    outputs := [⟨4, false⟩] }

/-- A majority gate whose first fan-in is the constant node with the
polarity bit set: node 3 = MAJ(not const0, 1, 2), i.e. OR(1, 2). -/
def ntkMC : Network :=
  { nodes :=
      [⟨NodeKind.constNode false, []⟩,
       ⟨NodeKind.pi, []⟩,
       ⟨NodeKind.pi, []⟩,
       ⟨NodeKind.majGate, [⟨0, true⟩, ⟨1, false⟩, ⟨2, false⟩]⟩],
    outputs := [⟨3, false⟩] }

/-- A network with a distinct constant-true node (index 1, stored value
true) feeding an XOR3 with plain polarity: node 4 = XOR3(true, 2, 3). -/
def ntkT : Network :=
  { nodes :=
      [⟨NodeKind.constNode false, []⟩,
       ⟨NodeKind.constNode true, []⟩,
       ⟨NodeKind.pi, []⟩,
       ⟨NodeKind.pi, []⟩,
       ⟨NodeKind.xor3Gate, [⟨1, false⟩, ⟨2, false⟩, ⟨3, false⟩]⟩],
    outputs := [⟨4, false⟩] }

/-- An XOR3 gate whose first fan-in is the (false) constant node with the
polarity bit set: node 3 = XOR3(not const0, 1, 2). -/
def ntkX : Network :=
  { nodes :=
      [⟨NodeKind.constNode false, []⟩,
       ⟨NodeKind.pi, []⟩,
       ⟨NodeKind.pi, []⟩,
       ⟨NodeKind.xor3Gate, [⟨0, true⟩, ⟨1, false⟩, ⟨2, false⟩]⟩],
    outputs := [⟨3, false⟩] }

/-- A sample solver collaborator whose budget-0 schedule differs from its
budget-2 schedule (any solver for which the pebble budget matters). -/
def exSolver : Network → Nat → List Step :=
  fun _ p =>
    if p = 0 then
      [(3, Action.compute), (4, Action.compute), (3, Action.uncompute)]
    else [(3, Action.compute), (4, Action.compute)]

/-- An identity qubit assignment used in expander witnesses. -/
def idMap : Nat → Nat := fun k => k

/-- A driver state about to compute node 3 onto the pooled qubit 5. -/
def c5before : DriverState :=
  { numQubits := 6, gates := [], errors := [], nodeToQubit := idMap,
    freeAncillae := [5], requiredAncillae := 0 }

/-- The same state after the compute step mapped node 3 to qubit 5. -/
def c5after : DriverState :=
  { c5before with nodeToQubit := updateMap idMap 3 5 }

/-! ### Shared lemmas -/

lemma insertAt_append (A B : List α) (a : α) :
    insertAt (A ++ B) A.length a = A ++ a :: B := by
  induction A with
  | nil => rfl
  | cons x A ih =>
    simp only [insertAt, List.cons_append, List.length_cons, List.take_succ_cons,
      List.drop_succ_cons] at *
    exact congrArg (x :: ·) ih

/-- The compute steps contributed by a visit list. -/
def bennettCs (ntk : Network) (ns : List Nat) : List Step :=
  (ns.filter (fun n => !(ntk.is_constant n) && !(ntk.is_pi n))).map
    (fun n => (n, Action.compute))

/-- The uncompute steps contributed by a visit list (reverse visit order). -/
def bennettUs (ntk : Network) (drivers : List Nat) (ns : List Nat) : List Step :=
  ((ns.filter (fun n =>
      (!(ntk.is_constant n) && !(ntk.is_pi n)) && !(drivers.contains n))).reverse).map
    (fun n => (n, Action.uncompute))

lemma bennettLoop_structure (ntk : Network) (drivers : List Nat) :
    ∀ (ns : List Nat) (A B : List Step),
      bennettLoop ntk drivers ns (A ++ B, A.length)
        = (A ++ bennettCs ntk ns ++ bennettUs ntk drivers ns ++ B,
           (A ++ bennettCs ntk ns).length) := by
  intro ns
  induction ns with
  | nil => intro A B; simp [bennettLoop, bennettCs, bennettUs]
  | cons n rest ih =>
    intro A B
    by_cases hskip : (ntk.is_constant n || ntk.is_pi n) = true
    · have hg : (!(ntk.is_constant n) && !(ntk.is_pi n)) = false := by
        cases h1 : ntk.is_constant n <;> cases h2 : ntk.is_pi n <;>
          simp_all
      simp only [bennettLoop, hskip, if_true]
      rw [ih A B]
      simp [bennettCs, bennettUs, hg]
    · have hskip' : (ntk.is_constant n || ntk.is_pi n) = false := by
        simp_all
      have hg : (!(ntk.is_constant n) && !(ntk.is_pi n)) = true := by
        cases h1 : ntk.is_constant n <;> cases h2 : ntk.is_pi n <;>
          simp_all
      have e1 : insertAt (A ++ B) A.length (n, Action.compute)
          = (A ++ [(n, Action.compute)]) ++ B := by
        rw [insertAt_append]; simp
      have hlen : A.length + 1 = (A ++ [(n, Action.compute)]).length := by simp
      by_cases hd : n ∈ drivers
      · have hd' : drivers.contains n = true := by
          simpa using hd
        simp only [bennettLoop, hskip', Bool.false_eq_true, if_false, hd', if_true]
        rw [e1, hlen, ih (A ++ [(n, Action.compute)]) B]
        simp [bennettCs, bennettUs, hg, hd, List.filter_cons]
      · have hd' : drivers.contains n = false := by
          simpa using hd
        simp only [bennettLoop, hskip', Bool.false_eq_true, if_false, hd', if_false]
        rw [e1, hlen, insertAt_append,
          ih (A ++ [(n, Action.compute)]) ((n, Action.uncompute) :: B)]
        simp [bennettCs, bennettUs, hg, hd, List.filter_cons]

lemma bennettSteps_eq (ntk : Network) :
    bennettSteps ntk
      = bennettCs ntk (topoNodes ntk)
        ++ bennettUs ntk (driverNodes ntk) (topoNodes ntk) := by
  have h := bennettLoop_structure ntk (driverNodes ntk) (topoNodes ntk)
    ([] : List Step) ([] : List Step)
  simp only [List.nil_append, List.length_nil] at h
  simp [bennettSteps, h]

lemma prepare_inputs_pool (ntk : Network) (s : DriverState) :
    (prepare_inputs ntk s).freeAncillae = s.freeAncillae
      ∧ (prepare_inputs ntk s).requiredAncillae = s.requiredAncillae := by
  unfold prepare_inputs
  generalize ntk.pis = l
  induction l generalizing s with
  | nil => exact ⟨rfl, rfl⟩
  | cons n rest ih => simpa using ih _

lemma prepare_constant_pool (ntk : Network) (v : Bool) (s : DriverState) :
    (prepare_constant ntk v s).freeAncillae = s.freeAncillae
      ∧ (prepare_constant ntk v s).requiredAncillae = s.requiredAncillae := by
  unfold prepare_constant
  by_cases h : ntk.fanout_size (ntk.get_constant v).node = 0
  · simp [h]
  · by_cases hv : xor (ntk.constant_value (ntk.get_constant v).node)
        (ntk.get_constant v).comp = true
    · simp [h, hv]
    · simp [h, hv]

lemma prepareAll_pool (ntk : Network) :
    (prepareAll ntk).freeAncillae = [] ∧ (prepareAll ntk).requiredAncillae = 0 := by
  unfold prepareAll
  have h1 := prepare_inputs_pool ntk initState
  have h2 := prepare_constant_pool ntk false (prepare_inputs ntk initState)
  by_cases h : (Network.get_constant ntk false).node ≠ (Network.get_constant ntk true).node
  · have h3 := prepare_constant_pool ntk true
      (prepare_constant ntk false (prepare_inputs ntk initState))
    rw [if_pos h]
    refine ⟨?_, ?_⟩
    · rw [h3.1, h2.1, h1.1]; rfl
    · rw [h3.2, h2.2, h1.2]; rfl
  · rw [if_neg h]
    refine ⟨?_, ?_⟩
    · rw [h2.1, h1.1]; rfl
    · rw [h2.2, h1.2]; rfl

lemma execSteps_computes (ntk : Network) :
    ∀ (ns : List Nat) (s : DriverState), s.freeAncillae = [] →
      (execSteps ntk s (ns.map (fun n => (n, Action.compute)))).freeAncillae = []
        ∧ (execSteps ntk s (ns.map (fun n => (n, Action.compute)))).requiredAncillae
            = s.requiredAncillae + ns.length := by
  intro ns
  induction ns with
  | nil => intro s h; exact ⟨h, rfl⟩
  | cons n rest ih =>
    intro s h
    have hra : (request_ancilla s).2.freeAncillae = []
        ∧ (request_ancilla s).2.requiredAncillae = s.requiredAncillae + 1 := by
      unfold request_ancilla
      rw [h]
      exact ⟨rfl, rfl⟩
    have h1 : (execStep ntk s (n, Action.compute)).freeAncillae = [] := hra.1
    have h2 : (execStep ntk s (n, Action.compute)).requiredAncillae
        = s.requiredAncillae + 1 := hra.2
    have hrest := ih (execStep ntk s (n, Action.compute)) h1
    refine ⟨?_, ?_⟩
    · simpa [execSteps] using hrest.1
    · have h3 := hrest.2
      simp only [execSteps, List.map_cons, List.foldl_cons, List.length_cons] at h3 ⊢
      rw [h3, h2]
      omega

lemma execSteps_uncomputes (ntk : Network) :
    ∀ (ns : List Nat) (s : DriverState),
      (execSteps ntk s (ns.map (fun n => (n, Action.uncompute)))).requiredAncillae
        = s.requiredAncillae := by
  intro ns
  induction ns with
  | nil => intro s; rfl
  | cons n rest ih =>
    intro s
    have h : (execStep ntk s (n, Action.uncompute)).requiredAncillae
        = s.requiredAncillae := rfl
    simp only [execSteps, List.map_cons, List.foldl_cons] at ih ⊢
    rw [ih, h]

lemma decrStep_some (acc : (Nat → Nat) × Option Nat) (f : Fanin) (t : Nat)
    (h : acc.2 = some t) : (decrStep acc f).2 = some t := by
  simp only [decrStep, h]
  by_cases h0 : decrValue (acc.1 f.node) = 0
  · simp [h0]
  · simp [h0]

lemma decrFanins_some (fs : List Fanin) :
    ∀ (v : Nat → Nat) (t : Nat), (decrFanins fs v (some t)).2 = some t := by
  induction fs with
  | nil => intro v t; rfl
  | cons f rest ih =>
    intro v t
    have hstep : decrStep (v, some t) f = ((decrStep (v, some t) f).1, some t) := by
      have h2 := decrStep_some (v, some t) f t rfl
      exact Prod.ext rfl h2
    simp only [decrFanins, List.foldl_cons] at ih ⊢
    rw [hstep]
    exact ih _ t

lemma decrFanins_none (fs : List Fanin) :
    ∀ v : Nat → Nat, (decrFanins fs v none).2 = specTargetAux v fs := by
  induction fs with
  | nil => intro v; rfl
  | cons f rest ih =>
    intro v
    simp only [decrFanins, List.foldl_cons] at ih ⊢
    rw [specTargetAux]
    by_cases h0 : decrValue (v f.node) = 0
    · have hstep : decrStep (v, none) f
          = (updateMap v f.node (decrValue (v f.node)), some f.node) := by
        simp [decrStep, h0]
      rw [hstep]
      have := decrFanins_some rest (updateMap v f.node (decrValue (v f.node))) f.node
      simp only [decrFanins] at this
      rw [this]
      simp [h0]
    · have hstep : decrStep (v, none) f
          = (updateMap v f.node (decrValue (v f.node)), none) := by
        simp [decrStep, h0]
      rw [hstep]
      rw [ih]
      simp [h0]

@[simp]
lemma litNode_encode (a : Nat) (b : Bool) :
    litNode (2 * a + (if b then 1 else 0)) = a := by
  cases b <;> simp [litNode] <;> omega

@[simp]
lemma litComp_encode (a : Nat) (b : Bool) :
    litComp (2 * a + (if b then 1 else 0)) = b := by
  cases b <;> simp [litComp] <;> omega

lemma request_ancilla_gates (s : DriverState) :
    (request_ancilla s).2.gates = s.gates := by
  unfold request_ancilla
  cases s.freeAncillae <;> rfl

lemma request_ancilla_map (s : DriverState) :
    (request_ancilla s).2.nodeToQubit = s.nodeToQubit := by
  unfold request_ancilla
  cases s.freeAncillae <;> rfl

lemma drop_append_length (l₁ l₂ : List α) : (l₁ ++ l₂).drop l₁.length = l₂ := by
  induction l₁ with
  | nil => rfl
  | cons a l ih => simpa using ih

lemma updateMap_self (m : Nat → Nat) (k v : Nat) : updateMap m k v k = v := by
  simp [updateMap]

/-! ### Claim theorems -/

/-- Claim C1.  The claim says the limit passed through set_pebble_limit
determines the schedule replayed via foreach_step.  It does not: the steps
are computed in the constructor from the constructor's pebbles argument
(which the synthesis driver leaves at its default 0), and set_pebble_limit
only writes the never-read limit_ member.  For every solver, network and
configured limit the replayed schedule is the budget-0 one; for the sample
solver, whose budget-2 schedule differs, the replayed schedule is
therefore not the budget-2 schedule. -/
theorem pebble_limit_never_reaches_solver :
    (∀ (solver : Network → Nat → List Step) (ntk : Network) (P : Nat),
      pebblingDriverSteps solver ntk P = solver ntk 0)
    ∧ pebblingDriverSteps exSolver ntkA 2 ≠ exSolver ntkA 2 := by
  refine ⟨fun _ _ _ => rfl, ?_⟩
  decide

/-- Claim C2, counterexample.  In the two-gate chain ntkA, node 3 is a
non-constant, non-input, non-driver node, its uncompute step is present in
the Bennett stream, yet (3, uncompute) is nowhere adjacent after
(3, compute): the compute of node 4 stands between them. -/
theorem bennett_uncompute_not_adjacent_cex :
    immediatelyUncomputed 3 (bennettSteps ntkA) = false
      ∧ (3, Action.uncompute) ∈ bennettSteps ntkA
      ∧ (3, Action.compute) ∈ bennettSteps ntkA
      ∧ (driverNodes ntkA).contains 3 = false
      ∧ ntkA.is_constant 3 = false ∧ ntkA.is_pi 3 = false := by
  decide

/-- Claim C2, amended.  In the Bennett stream every non-driver's uncompute
comes after its compute, but not adjacent to it: the stream is all compute
steps in topological visit order followed by the uncompute steps of the
non-driver nodes in reverse visit order. -/
theorem bennett_stream_structure (ntk : Network) :
    bennettSteps ntk
      = (topoGateNodes ntk).map (fun n => (n, Action.compute))
        ++ (((topoGateNodes ntk).filter
              (fun n => !((driverNodes ntk).contains n))).reverse).map
            (fun n => (n, Action.uncompute)) := by
  rw [bennettSteps_eq]
  have hCs : bennettCs ntk (topoNodes ntk)
      = (topoGateNodes ntk).map (fun n => (n, Action.compute)) := rfl
  rw [hCs]
  have hUs : bennettUs ntk (driverNodes ntk) (topoNodes ntk)
      = (((topoGateNodes ntk).filter
            (fun n => !((driverNodes ntk).contains n))).reverse).map
          (fun n => (n, Action.uncompute)) := by
    unfold bennettUs topoGateNodes
    rw [List.filter_filter]
    have hpred : (fun a => !((driverNodes ntk).contains a)
          && (!(ntk.is_constant a) && !(ntk.is_pi a)))
        = (fun n => (!(ntk.is_constant n) && !(ntk.is_pi n))
          && !((driverNodes ntk).contains n)) := by
      funext a
      exact Bool.and_comm _ _
    rw [hpred]
  rw [hUs]

/-- Claim C4, counterexample.  In ntkB the dead gate (node 3) is a
non-constant, non-input node, but the topological view rooted at the
primary outputs never visits it, so the Bennett run allocates one ancilla
while the network has two non-constant, non-input nodes. -/
theorem bennett_ancillae_dead_gate_cex :
    (runBennett ntkB).requiredAncillae = 1 ∧ numGateNodes ntkB = 2 := by
  decide

/-- Claim C4, amended.  With the Bennett strategy, required_ancillae
equals the number of non-constant, non-input nodes visited by the
PO-rooted topological view (the gates in the output cone); this equals
the total gate count exactly when every gate lies in the cone. -/
theorem bennett_required_ancillae (ntk : Network) :
    (runBennett ntk).requiredAncillae = (topoGateNodes ntk).length := by
  have hprep := prepareAll_pool ntk
  have hC := execSteps_computes ntk (topoGateNodes ntk) (prepareAll ntk) hprep.1
  unfold runBennett runSteps
  rw [bennett_stream_structure]
  have happ : execSteps ntk (prepareAll ntk)
      ((topoGateNodes ntk).map (fun n => (n, Action.compute))
        ++ (((topoGateNodes ntk).filter
              (fun n => !((driverNodes ntk).contains n))).reverse).map
            (fun n => (n, Action.uncompute)))
      = execSteps ntk
          (execSteps ntk (prepareAll ntk)
            ((topoGateNodes ntk).map (fun n => (n, Action.compute))))
          ((((topoGateNodes ntk).filter
              (fun n => !((driverNodes ntk).contains n))).reverse).map
            (fun n => (n, Action.uncompute))) := by
    simp [execSteps, List.foldl_append]
  rw [happ, execSteps_uncomputes, hC.2, hprep.2]
  omega

/-- Claim C6, counterexample.  After the Bennett run on ntkA the uncomputed
node 3 still maps to qubit 2 while qubit 2 sits in the free-ancilla pool:
Uncompute released the qubit but did not remove the NodeToQubit entry. -/
theorem uncompute_stale_mapping_cex :
    (runBennett ntkA).freeAncillae = [2]
      ∧ (runBennett ntkA).nodeToQubit 3 = 2 := by
  decide

/-- Claim C6, amended.  Executing Uncompute(n) replays the expander on
n's qubit and releases that qubit to the pool, but leaves the NodeToQubit
entry in place (node_map has no erase); a released qubit therefore remains
in the value-range of NodeToQubit until the node is recomputed. -/
theorem uncompute_releases_without_unmap (ntk : Network) (s : DriverState) (n : Nat) :
    execStep ntk s (n, Action.uncompute)
      = { s with
            gates := s.gates ++ compute_node ntk s.nodeToQubit n (s.nodeToQubit n),
            freeAncillae := s.nodeToQubit n :: s.freeAncillae } := rfl

/-- Claim C3.  In the Bennett in-place strategy's per-node emission, the
ComputeInplace/UncomputeInplace pair on target tgt is produced if and only
if tgt is the first fan-in (in fan-in iteration order) whose
remaining-fan-out counter hits zero while processing the node, the node is
not a primary-output driver, and it is an XOR or XOR3 gate; in every other
case the node gets a Compute step, plus an Uncompute step when it is not a
driver. -/
theorem bi_inplace_pair_iff (ntk : Network) (v : Nat → Nat) (n : Nat) :
    (∀ tgt : Nat,
      ((biDecide ntk (driverNodes ntk) v n).1 = (n, Action.computeInplace tgt)
        ∧ (biDecide ntk (driverNodes ntk) v n).2.1
            = some (n, Action.uncomputeInplace tgt))
      ↔ (specTarget ntk v n = some tgt
          ∧ (driverNodes ntk).contains n = false
          ∧ (ntk.is_xor n || ntk.is_xor3 n) = true))
    ∧ ((specTarget ntk v n = none ∨ (driverNodes ntk).contains n = true
          ∨ (ntk.is_xor n || ntk.is_xor3 n) = false) →
      (biDecide ntk (driverNodes ntk) v n).1 = (n, Action.compute)
        ∧ (biDecide ntk (driverNodes ntk) v n).2.1
            = (if (driverNodes ntk).contains n then none
               else some (n, Action.uncompute))) := by
  have hbt : (decrFanins (ntk.faninsOf n) v none).2 = specTarget ntk v n :=
    decrFanins_none (ntk.faninsOf n) v
  simp only [biDecide]
  cases hs : (decrFanins (ntk.faninsOf n) v none).2 with
  | none =>
    have hspec : specTarget ntk v n = none := by rw [← hbt, hs]
    constructor
    · intro tgt
      constructor
      · rintro ⟨h1, _⟩
        simp at h1
      · rintro ⟨h1, _⟩
        rw [hspec] at h1
        cases h1
    · intro _
      exact ⟨rfl, rfl⟩
  | some t0 =>
    have hspec : specTarget ntk v n = some t0 := by rw [← hbt, hs]
    by_cases hcond : (!((driverNodes ntk).contains n)
        && (ntk.is_xor n || ntk.is_xor3 n)) = true
    · have hd : (driverNodes ntk).contains n = false := by
        have := hcond
        simp only [Bool.and_eq_true, Bool.not_eq_true'] at this
        exact this.1
      have hx : (ntk.is_xor n || ntk.is_xor3 n) = true := by
        have := hcond
        simp only [Bool.and_eq_true] at this
        exact this.2
      simp only [hcond, if_true]
      constructor
      · intro tgt
        constructor
        · rintro ⟨h1, _⟩
          have ht : tgt = t0 := by
            simpa using h1.symm
          subst ht
          exact ⟨hspec, hd, hx⟩
        · rintro ⟨h1, _, _⟩
          rw [hspec] at h1
          have ht : tgt = t0 := by
            simpa using h1.symm
          subst ht
          exact ⟨rfl, rfl⟩
      · intro hdisj
        rcases hdisj with h | h | h
        · rw [hspec] at h; cases h
        · rw [hd] at h; cases h
        · rw [hx] at h; cases h
    · have hcond' : (!((driverNodes ntk).contains n)
          && (ntk.is_xor n || ntk.is_xor3 n)) = false := by
        simpa using hcond
      simp only [hcond', Bool.false_eq_true, if_false]
      constructor
      · intro tgt
        constructor
        · rintro ⟨h1, _⟩
          simp at h1
        · rintro ⟨h1, h2, h3⟩
          rw [h2, h3] at hcond'
          simp at hcond'
      · intro _
        constructor <;> first | rfl | trivial

/-- Claim C3, witness: in the XOR chain ntkC, processing node 4 with the
initial fan-out counters yields the in-place pair on target 1 (the first
fan-in to die), matching the specification's conditions. -/
theorem bi_inplace_pair_iff_witness :
    (biDecide ntkC (driverNodes ntkC) (fun n => ntkC.fanout_size n) 4).1
        = (4, Action.computeInplace 1)
      ∧ (biDecide ntkC (driverNodes ntkC) (fun n => ntkC.fanout_size n) 4).2.1
        = some (4, Action.uncomputeInplace 1) :=
  ((bi_inplace_pair_iff ntkC (fun n => ntkC.fanout_size n) 4).1 1).mpr
    ⟨by decide, by decide, by decide⟩

/-- Claim C5.  The driver uses the same expander for Uncompute as for
Compute and the same in-place expander for UncomputeInplace as for
ComputeInplace: whenever the uncompute-time NodeToQubit state equals the
state the compute step produced (the node mapped to the same qubit t), the
emitted gate sequences coincide — the gadget is replayed, not inverted. -/
theorem uncompute_replays_compute (ntk : Network) (s s' : DriverState) (n : Nat) :
    (s'.nodeToQubit = updateMap s.nodeToQubit n (request_ancilla s).1 →
      emitted ntk s' (n, Action.uncompute) = emitted ntk s (n, Action.compute))
    ∧ (∀ j j' : Nat,
        s'.nodeToQubit = updateMap s.nodeToQubit n (s.nodeToQubit j) →
          emitted ntk s' (n, Action.uncomputeInplace j')
            = emitted ntk s (n, Action.computeInplace j)) := by
  constructor
  · intro h
    have e1 : (execStep ntk s' (n, Action.uncompute)).gates
        = s'.gates ++ compute_node ntk s'.nodeToQubit n (s'.nodeToQubit n) := rfl
    have e2 : (execStep ntk s (n, Action.compute)).gates
        = s.gates ++ compute_node ntk
            (updateMap s.nodeToQubit n (request_ancilla s).1) n
            (request_ancilla s).1 := by
      have e0 : (execStep ntk s (n, Action.compute)).gates
          = (request_ancilla s).2.gates ++ compute_node ntk
              (updateMap (request_ancilla s).2.nodeToQubit n (request_ancilla s).1) n
              (request_ancilla s).1 := rfl
      rw [e0, request_ancilla_gates, request_ancilla_map]
    unfold emitted
    rw [e1, e2, drop_append_length, drop_append_length, h, updateMap_self]
  · intro j j' h
    have e1 : (execStep ntk s' (n, Action.uncomputeInplace j')).gates
        = s'.gates
          ++ (compute_node_inplace ntk s'.nodeToQubit n (s'.nodeToQubit n)).1 := rfl
    have e2 : (execStep ntk s (n, Action.computeInplace j)).gates
        = s.gates ++ (compute_node_inplace ntk
            (updateMap s.nodeToQubit n (s.nodeToQubit j)) n (s.nodeToQubit j)).1 := rfl
    unfold emitted
    rw [e1, e2, drop_append_length, drop_append_length, h, updateMap_self]

/-- Claim C5, witness: a concrete state pair around computing node 3 onto
pooled qubit 5 in the XOR chain, for both the plain and the in-place
variants. -/
theorem uncompute_replays_compute_witness :
    emitted ntkC c5after (3, Action.uncompute) = emitted ntkC c5before (3, Action.compute)
      ∧ emitted ntkC c5after (3, Action.uncomputeInplace 0)
          = emitted ntkC c5before (3, Action.computeInplace 5) :=
  ⟨(uncompute_replays_compute ntkC c5before c5after 3).1 rfl,
   (uncompute_replays_compute ntkC c5before c5after 3).2 5 0 rfl⟩

/-- Claim C7.  Expanding a MAJ gate whose first fan-in is a constant node
emits exactly the OR gadget on the other two fan-ins when the first
fan-in's polarity bit is set and exactly the AND gadget otherwise; with a
non-constant first fan-in it emits the Toffoli-based majority gadget
CNOT(c1,c2), CNOT(c3,c1), CNOT(c3,t), Toffoli(c1,c2;t), CNOT(c3,c1),
CNOT(c1,c2) wrapped in polarity X-flips, control 2 treated oppositely. -/
theorem maj_expansion (ntk : Network) (m : Nat → Nat) (n t : Nat) (f1 f2 f3 : Fanin)
    (hk : ntk.kindOf n = NodeKind.majGate)
    (hf : ntk.faninsOf n = [f1, f2, f3]) :
    (ntk.is_constant f1.node = true →
      compute_node ntk m n t
        = if f1.comp then
            xGatesIf (!f2.comp) (m f2.node) ++ xGatesIf (!f3.comp) (m f3.node)
              ++ [QGate.mcx [m f2.node, m f3.node] [t], QGate.x t]
              ++ xGatesIf (!f3.comp) (m f3.node) ++ xGatesIf (!f2.comp) (m f2.node)
          else
            xGatesIf f2.comp (m f2.node) ++ xGatesIf f3.comp (m f3.node)
              ++ [QGate.mcx [m f2.node, m f3.node] [t]]
              ++ xGatesIf f3.comp (m f3.node) ++ xGatesIf f2.comp (m f2.node))
    ∧ (ntk.is_constant f1.node = false →
      compute_node ntk m n t
        = xGatesIf f1.comp (m f1.node) ++ xGatesIf (!f2.comp) (m f2.node)
            ++ xGatesIf f3.comp (m f3.node)
            ++ [QGate.cx (m f1.node) (m f2.node), QGate.cx (m f3.node) (m f1.node),
                QGate.cx (m f3.node) t, QGate.mcx [m f1.node, m f2.node] [t],
                QGate.cx (m f3.node) (m f1.node), QGate.cx (m f1.node) (m f2.node)]
            ++ xGatesIf f3.comp (m f3.node) ++ xGatesIf (!f2.comp) (m f2.node)
            ++ xGatesIf f1.comp (m f1.node)) := by
  have hand : ntk.is_and n = false := by simp [Network.is_and, hk]
  have hor : ntk.is_or n = false := by simp [Network.is_or, hk]
  have hxor : ntk.is_xor n = false := by simp [Network.is_xor, hk]
  have hxor3 : ntk.is_xor3 n = false := by simp [Network.is_xor3, hk]
  have hmaj : ntk.is_maj n = true := by simp [Network.is_maj, hk]
  constructor
  · intro hc
    simp [compute_node, hand, hor, hxor, hxor3, hmaj, faninLiterals, hf, hc,
      compute_or, compute_and]
  · intro hc
    simp [compute_node, hand, hor, hxor, hxor3, hmaj, faninLiterals, hf, hc,
      compute_maj]

/-- Claim C7, witness: the MAJ gate of ntkM (no constant fan-in, third
fan-in complemented) expands to the explicit majority gadget. -/
theorem maj_expansion_witness :
    compute_node ntkM idMap 4 9
      = xGatesIf false 1 ++ xGatesIf true 2 ++ xGatesIf true 3
          ++ [QGate.cx 1 2, QGate.cx 3 1, QGate.cx 3 9,
              QGate.mcx [1, 2] [9], QGate.cx 3 1, QGate.cx 1 2]
          ++ xGatesIf true 3 ++ xGatesIf true 2 ++ xGatesIf false 1 :=
  (maj_expansion ntkM idMap 4 9 ⟨1, false⟩ ⟨2, false⟩ ⟨3, true⟩
    (by decide) (by decide)).2 (by decide)

/-- Claim C8, counterexample.  In ntkT the XOR3's first fan-in is a
distinct constant node whose stored value is true (polarity bit clear).
The claim's folded inversion flag (which XORs in the constant's value) is
true, yet the code folds using the polarity bits only and emits the two
CNOTs with no X on the target. -/
theorem xor3_fold_ignores_constant_value_cex :
    compute_node ntkT idMap 4 9 = [QGate.cx 2 9, QGate.cx 3 9]
      ∧ claimedFoldFlag ntkT ⟨1, false⟩ ⟨2, false⟩ ⟨3, false⟩ = true
      ∧ ntkT.faninsOf 4 = [⟨1, false⟩, ⟨2, false⟩, ⟨3, false⟩]
      ∧ ntkT.is_constant 1 = true ∧ ntkT.constant_value 1 = true := by
  decide

/-- Claim C8, amended.  An XOR3 whose first fan-in is a constant node
collapses to a binary XOR of the other two fan-ins whose inversion flag is
the XOR of the three fan-in polarity bits; the constant node's stored
Boolean value is not consulted.  The same fold drives the in-place
expansion. -/
theorem xor3_fold_flag (ntk : Network) (m : Nat → Nat) (n t : Nat) (f1 f2 f3 : Fanin)
    (hk : ntk.kindOf n = NodeKind.xor3Gate)
    (hf : ntk.faninsOf n = [f1, f2, f3])
    (hc : ntk.is_constant f1.node = true) :
    compute_node ntk m n t
      = [QGate.cx (m f2.node) t, QGate.cx (m f3.node) t]
          ++ xGatesIf (xor (xor f1.comp f2.comp) f3.comp) t
    ∧ compute_node_inplace ntk m n t
      = compute_xor_inplace (m f2.node) (m f3.node)
          (xor (xor f1.comp f2.comp) f3.comp) t := by
  have hand : ntk.is_and n = false := by simp [Network.is_and, hk]
  have hor : ntk.is_or n = false := by simp [Network.is_or, hk]
  have hxor : ntk.is_xor n = false := by simp [Network.is_xor, hk]
  have hxor3 : ntk.is_xor3 n = true := by simp [Network.is_xor3, hk]
  constructor
  · simp [compute_node, hand, hor, hxor, hxor3, faninLiterals, hf, hc, compute_xor]
  · simp [compute_node_inplace, hxor, hxor3, faninLiterals, hf, hc]

/-- Claim C8, witness (for the amended statement): the constant-fed XOR3
of ntkX, whose first fan-in is the complemented constant-false node,
collapses to CNOTs from qubits 1 and 2 with the inversion X emitted. -/
theorem xor3_fold_flag_witness :
    compute_node ntkX idMap 3 9
        = [QGate.cx 1 9, QGate.cx 2 9] ++ xGatesIf true 9
      ∧ compute_node_inplace ntkX idMap 3 9
        = compute_xor_inplace 1 2 true 9 :=
  xor3_fold_flag ntkX idMap 3 9 ⟨0, true⟩ ⟨1, false⟩ ⟨2, false⟩
    (by decide) (by decide) (by decide)

/-- Claim C9.  When no in-place control qubit equals the target, the
expander pushes exactly the mismatch diagnostic on the error sink (for
both the XOR and the XOR3 in-place routines) and the driver's step loop
continues unconditionally: executing a step list always proceeds to the
remaining steps, whatever the step's outcome. -/
theorem inplace_mismatch_soft_error (c1 c2 c3 t : Nat) (inv : Bool)
    (h1 : c1 ≠ t) (h2 : c2 ≠ t) (h3 : c3 ≠ t) :
    (compute_xor_inplace c1 c2 inv t).2 = [errMsg]
    ∧ (compute_xor3_inplace c1 c2 c3 inv t).2 = [errMsg]
    ∧ ∀ (ntk : Network) (s : DriverState) (st : Step) (rest : List Step),
        execSteps ntk s (st :: rest) = execSteps ntk (execStep ntk s st) rest := by
  refine ⟨?_, ?_, ?_⟩
  · simp [compute_xor_inplace, h1, h2]
  · simp [compute_xor3_inplace, h1, h2, h3]
  · intro ntk s st rest
    rfl

/-- Claim C9, witness: controls 1, 2, 3 against target 0. -/
theorem inplace_mismatch_soft_error_witness :
    (compute_xor_inplace 1 2 true 0).2 = [errMsg]
      ∧ (compute_xor3_inplace 1 2 3 true 0).2 = [errMsg] :=
  ⟨(inplace_mismatch_soft_error 1 2 3 0 true (by decide) (by decide) (by decide)).1,
   (inplace_mismatch_soft_error 1 2 3 0 true (by decide) (by decide) (by decide)).2.1⟩

/-- Claim C10.  On the in-place mismatch path with the inversion flag set,
a Pauli-X on the target is still emitted into the QuantumNetwork after the
diagnostic — the error path modifies the circuit. -/
theorem inplace_mismatch_still_flips (c1 c2 c3 t : Nat)
    (h1 : c1 ≠ t) (h2 : c2 ≠ t) (h3 : c3 ≠ t) :
    (compute_xor_inplace c1 c2 true t).1 = [QGate.x t]
    ∧ (compute_xor3_inplace c1 c2 c3 true t).1 = [QGate.x t] := by
  constructor
  · simp [compute_xor_inplace, h1, h2, xGatesIf]
  · simp [compute_xor3_inplace, h1, h2, h3, xGatesIf]

/-- Claim C10, witness: controls 1, 2, 3 against target 0. -/
theorem inplace_mismatch_still_flips_witness :
    (compute_xor_inplace 1 2 true 0).1 = [QGate.x 0]
      ∧ (compute_xor3_inplace 1 2 3 true 0).1 = [QGate.x 0] :=
  inplace_mismatch_still_flips 1 2 3 0 (by decide) (by decide) (by decide)

end Caterpillar
